import Mathlib

/-!
# Verification of the sprite/animation editor core

Shallow embedding of the core algorithms of the asset-authoring tool:

* the flood-fill engine of the pixel editor (`floodFill`, from the manual
  edit modal),
* the frame slicer/stitcher and timeline editor (`slice`, `stitch`,
  `deleteFrame`, `moveFrame`, `animateTick`, from `AnimationModal.tsx`),
* the runtime-preview physics/animation loop (`tick`, from the game
  playground component).

Pixel colors are exact RGBA quadruples of naturals; simulated physics
quantities are rationals (the source uses JS doubles; the constants
0.8, 0.5, 15 and all comparisons used here are modelled exactly, with
0.8 as 4/5).
-/

/-- One RGBA sample, as read from / written to `ImageData.data`. -/
structure Color where
  r : Nat
  g : Nat
  b : Nat
  a : Nat
deriving DecidableEq, Repr

instance : Inhabited Color := ⟨⟨0, 0, 0, 0⟩⟩

/-- A raster buffer: the backing canvas of the pixel editor.  `data` is the
flat row-major RGBA array (one `Color` per pixel). -/
structure Buffer where
  width : Nat
  height : Nat
  data : List Color
deriving DecidableEq, Repr

/-- The getPixel helper of `floodFill`: returns the flat index of an
in-bounds coordinate, `none` for the source's `-1` sentinel. -/
def getPixel (w h : Nat) (px py : Int) : Option Nat :=
  if px < 0 ∨ py < 0 ∨ px ≥ (w : Int) ∨ py ≥ (h : Int) then none
  else some (py.toNat * w + px.toNat)

/-- Flat index of an in-bounds coordinate pair. -/
def idxOf (w : Nat) (p : Int × Int) : Nat := p.2.toNat * w + p.1.toNat

/-- In-bounds predicate matching `getPixel`'s check. -/
def inB (w h : Nat) (p : Int × Int) : Prop :=
  0 ≤ p.1 ∧ 0 ≤ p.2 ∧ p.1 < (w : Int) ∧ p.2 < (h : Int)

instance (w h : Nat) (p : Int × Int) : Decidable (inB w h p) := by
  unfold inB; infer_instance

theorem getPixel_eq_some_iff {w h : Nat} {px py : Int} {i : Nat} :
    getPixel w h px py = some i ↔ inB w h (px, py) ∧ i = idxOf w (px, py) := by
  unfold getPixel inB idxOf
  by_cases hc : px < 0 ∨ py < 0 ∨ px ≥ (w : Int) ∨ py ≥ (h : Int)
  · simp only [if_pos hc]
    constructor
    · intro hfalse; cases hfalse
    · rintro ⟨⟨h1, h2, h3, h4⟩, -⟩
      exact absurd hc (by push_neg; exact ⟨h1, h2, h3, h4⟩)
  · simp only [if_neg hc]
    push_neg at hc
    obtain ⟨h1, h2, h3, h4⟩ := hc
    constructor
    · intro hsome
      exact ⟨⟨h1, h2, h3, h4⟩, (Option.some.injEq _ _ ▸ hsome ▸ rfl)⟩
    · rintro ⟨-, rfl⟩; rfl

theorem getPixel_eq_none_iff {w h : Nat} {px py : Int} :
    getPixel w h px py = none ↔ ¬ inB w h (px, py) := by
  unfold getPixel inB
  by_cases hc : px < 0 ∨ py < 0 ∨ px ≥ (w : Int) ∨ py ≥ (h : Int)
  · simp only [if_pos hc]
    constructor
    · intro _ hin
      obtain ⟨h1, h2, h3, h4⟩ := hin
      exact absurd hc (by push_neg; exact ⟨h1, h2, h3, h4⟩)
    · intro _; trivial
  · simp only [if_neg hc]
    push_neg at hc
    constructor
    · intro hnone; cases hnone
    · intro hnin; exact absurd ⟨hc.1, hc.2.1, hc.2.2.1, hc.2.2.2⟩ hnin

theorem getPixel_inB {w h : Nat} {p : Int × Int} (hp : inB w h p) :
    getPixel w h p.1 p.2 = some (idxOf w p) :=
  getPixel_eq_some_iff.mpr ⟨(by cases p; exact hp), rfl⟩

/-- Auxiliary: setting an `sc`-colored cell to a different color strictly
decreases the number of `sc`-colored cells. -/
theorem countP_set_lt {sc tc : Color} (hne : sc ≠ tc) :
    ∀ (l : List Color) (i : Nat), l[i]? = some sc →
      (l.set i tc).countP (fun c => c == sc) < l.countP (fun c => c == sc) := by
  intro l
  induction l with
  | nil => intro i hi; simp at hi
  | cons a t ih =>
    intro i hi
    cases i with
    | zero =>
      simp only [List.getElem?_cons_zero, Option.some.injEq] at hi
      subst hi
      simp only [List.set_cons_zero]
      rw [List.countP_cons, List.countP_cons]
      have htc : (tc == a) = false := by
        simp only [beq_eq_false_iff_ne]; intro hcontra; exact hne (hcontra ▸ rfl)
      have ha : (a == a) = true := by simp
      simp [htc, ha]
    | succ j =>
      simp only [List.getElem?_cons_succ] at hi
      simp only [List.set_cons_succ]
      rw [List.countP_cons, List.countP_cons]
      have := ih j hi
      omega

/-- The explicit-stack loop of `floodFill`: pop a coordinate, if in-bounds
and still the start color recolor it to `tc` and push the four axis-aligned
neighbors (the list head is the stack top, so the push/pop order matches the
source's array `push`/`pop`).  The source only ever enters this loop after
its `Sc == Tc` early return, so the loop carries that fact (`hne`), which is
what makes it terminate. -/
def fillLoop (w h : Nat) (sc tc : Color) (hne : sc ≠ tc) :
    List (Int × Int) → List Color → List Color
  | [], data => data
  | (cx, cy) :: rest, data =>
    match getPixel w h cx cy with
    | none => fillLoop w h sc tc hne rest data
    | some idx =>
      if hcol : data[idx]? = some sc then
        fillLoop w h sc tc hne
          ((cx, cy - 1) :: (cx, cy + 1) :: (cx - 1, cy) :: (cx + 1, cy) :: rest)
          (data.set idx tc)
      else
        fillLoop w h sc tc hne rest data
termination_by stack data => 5 * data.countP (fun c => c == sc) + stack.length
decreasing_by
  all_goals simp only [List.length_cons]
  all_goals first
    | omega
    | (have hcnt := countP_set_lt hne data idx hcol; omega)

/-- Flood Fill(x, y, Tc) of the pixel editor.  The fill color arrives as the
three parsed hex components; the written alpha is the source's hard-coded
255.  When the start coordinate is out of bounds the source reads an
`undefined` start color which matches no pixel, so the buffer is returned
unchanged (`none` branches); likewise when the flat array is too short to
contain the start index. -/
def floodFill (buf : Buffer) (x y : Int) (fr fg fb : Nat) : Buffer :=
  let tc : Color := ⟨fr, fg, fb, 255⟩
  match getPixel buf.width buf.height x y with
  | none => buf
  | some startIdx =>
    match buf.data[startIdx]? with
    | none => buf
    | some sc =>
      if hne : sc = tc then buf
      else { buf with data := fillLoop buf.width buf.height sc tc hne [(x, y)] buf.data }

/-! ## Specification of flood fill: 4-connected components -/

/-- 4-adjacency of two coordinates (the four axis-aligned neighbors pushed
by the loop). -/
def Adj (p q : Int × Int) : Prop :=
  (q.1 = p.1 + 1 ∧ q.2 = p.2) ∨ (q.1 = p.1 - 1 ∧ q.2 = p.2) ∨
  (q.1 = p.1 ∧ q.2 = p.2 + 1) ∨ (q.1 = p.1 ∧ q.2 = p.2 - 1)

/-- A coordinate that is in bounds and currently holds the color `sc`. -/
def okP (w h : Nat) (sc : Color) (d : List Color) (p : Int × Int) : Prop :=
  inB w h p ∧ d[idxOf w p]? = some sc

/-- One connectivity step: move to an adjacent in-bounds `sc`-colored cell. -/
def stepRel (w h : Nat) (sc : Color) (d : List Color) : (Int × Int) → (Int × Int) → Prop :=
  fun p q => okP w h sc d q ∧ Adj p q

/-- `b` is 4-connected to `a` through cells colored `sc` (endpoints
included). -/
def Conn (w h : Nat) (sc : Color) (d : List Color) (a b : Int × Int) : Prop :=
  okP w h sc d a ∧ Relation.ReflTransGen (stepRel w h sc d) a b

theorem idxOf_inj {w h : Nat} {p q : Int × Int}
    (hp : inB w h p) (hq : inB w h q) (heq : idxOf w p = idxOf w q) : p = q := by
  obtain ⟨hp1, hp2, hp3, hp4⟩ := hp
  obtain ⟨hq1, hq2, hq3, hq4⟩ := hq
  have hpx : p.1.toNat < w := by omega
  have hqx : q.1.toNat < w := by omega
  unfold idxOf at heq
  have hx : p.1.toNat = q.1.toNat := by
    have h1 : (p.1.toNat + p.2.toNat * w) % w = (q.1.toNat + q.2.toNat * w) % w := by
      rw [Nat.add_comm, heq, Nat.add_comm]
    rw [Nat.add_mul_mod_self_right, Nat.add_mul_mod_self_right,
      Nat.mod_eq_of_lt hpx, Nat.mod_eq_of_lt hqx] at h1
    exact h1
  have hw : 0 < w := by omega
  have hy : p.2.toNat = q.2.toNat := by
    have : p.2.toNat * w = q.2.toNat * w := by omega
    exact Nat.eq_of_mul_eq_mul_right hw this
  have e1 : p.1 = q.1 := by omega
  have e2 : p.2 = q.2 := by omega
  exact Prod.ext e1 e2

/-- Recoloring the popped cell removes exactly it from the `sc`-colored set. -/
theorem okP_set_iff {w h : Nat} {sc tc : Color} (hne : sc ≠ tc) {d : List Color}
    {qq : Int × Int} (hqin : inB w h qq) (hq : d[idxOf w qq]? = some sc) (x : Int × Int) :
    okP w h sc (d.set (idxOf w qq) tc) x ↔ okP w h sc d x ∧ x ≠ qq := by
  have hlt : idxOf w qq < d.length := (List.getElem?_eq_some_iff.mp hq).1
  by_cases hi : idxOf w x = idxOf w qq
  · constructor
    · rintro ⟨hxin, hcol⟩
      rw [hi, List.getElem?_set_self hlt] at hcol
      exact absurd (Option.some.inj hcol).symm hne
    · rintro ⟨⟨hxin, hcol⟩, hxq⟩
      exact absurd (idxOf_inj hxin hqin hi) hxq
  · have hset : (d.set (idxOf w qq) tc)[idxOf w x]? = d[idxOf w x]? :=
      List.getElem?_set_ne (fun hcontra => hi hcontra.symm)
    have hxq : x ≠ qq := fun hcontra => hi (by rw [hcontra])
    unfold okP
    rw [hset]
    exact ⟨fun hh => ⟨hh, hxq⟩, fun hh => hh.1⟩

/-- Path surgery: a connectivity path in `d` ending away from the recolored
cell `qq` either avoids `qq` entirely, or can be restarted at a neighbor of
`qq`, in both cases giving a path in the recolored data. -/
theorem conn_avoid {w h : Nat} {sc tc : Color} (hne : sc ≠ tc) {d : List Color}
    {qq : Int × Int} (hqin : inB w h qq) (hq : d[idxOf w qq]? = some sc)
    {a b : Int × Int} (hab : Relation.ReflTransGen (stepRel w h sc d) a b) :
    okP w h sc d a → b ≠ qq →
      (a ≠ qq ∧ Relation.ReflTransGen (stepRel w h sc (d.set (idxOf w qq) tc)) a b) ∨
      (∃ nb, Adj qq nb ∧ okP w h sc (d.set (idxOf w qq) tc) nb ∧
        Relation.ReflTransGen (stepRel w h sc (d.set (idxOf w qq) tc)) nb b) := by
  induction hab using Relation.ReflTransGen.head_induction_on with
  | refl =>
    intro hok hbq
    exact Or.inl ⟨hbq, Relation.ReflTransGen.refl⟩
  | head hstep hrest ih =>
    rename_i a c
    intro hoka hbq
    obtain ⟨hokc, hadj⟩ := hstep
    rcases ih hokc hbq with ⟨hcq, hrtg⟩ | ⟨nb, hnbadj, hnbok, hnbrtg⟩
    · have hokc2 : okP w h sc (d.set (idxOf w qq) tc) c :=
        (okP_set_iff hne hqin hq c).mpr ⟨hokc, hcq⟩
      by_cases haq : a = qq
      · exact Or.inr ⟨c, haq ▸ hadj, hokc2, hrtg⟩
      · exact Or.inl ⟨haq, hrtg.head ⟨hokc2, hadj⟩⟩
    · exact Or.inr ⟨nb, hnbadj, hnbok, hnbrtg⟩

/-- The loop invariant: the data differs from the original exactly on an
already-recolored subset of the start's component, every still-unreached
component cell is connected (through still-`sc` cells) to a stack entry,
and every stack entry that is still `sc`-colored belongs to the component. -/
def FillInv (w h : Nat) (sc tc : Color) (d0 : List Color) (s : Int × Int)
    (stack : List (Int × Int)) (d : List Color) : Prop :=
  d.length = d0.length ∧
  (∀ i, d[i]? = d0[i]? ∨ (d[i]? = some tc ∧ ∃ p, idxOf w p = i ∧ Conn w h sc d0 s p)) ∧
  (∀ p, Conn w h sc d0 s p → d[idxOf w p]? = some tc ∨ ∃ q ∈ stack, Conn w h sc d q p) ∧
  (∀ q ∈ stack, okP w h sc d q → Conn w h sc d0 s q)

/-- A cell that still has the start color in the working data had it in the
original data. -/
theorem okP_orig {w h : Nat} {sc tc : Color} {d0 d : List Color} {s : Int × Int}
    (hne : sc ≠ tc)
    (hInv1 : ∀ i, d[i]? = d0[i]? ∨ (d[i]? = some tc ∧ ∃ p, idxOf w p = i ∧ Conn w h sc d0 s p))
    {x : Int × Int} (hx : okP w h sc d x) : okP w h sc d0 x := by
  obtain ⟨hxin, hcol⟩ := hx
  rcases hInv1 (idxOf w x) with heq | ⟨htc, -⟩
  · exact ⟨hxin, heq ▸ hcol⟩
  · rw [hcol] at htc
    exact absurd (Option.some.inj htc) hne

/-- Popping a cell that is out of bounds or no longer `sc`-colored preserves
the invariant. -/
theorem fillInv_skip {w h : Nat} {sc tc : Color} {d0 : List Color} {s : Int × Int}
    {cx cy : Int} {rest : List (Int × Int)} {d : List Color}
    (hskip : getPixel w h cx cy = none ∨
      ∃ idx, getPixel w h cx cy = some idx ∧ ¬ d[idx]? = some sc)
    (hInv : FillInv w h sc tc d0 s ((cx, cy) :: rest) d) :
    FillInv w h sc tc d0 s rest d := by
  obtain ⟨hlen, hInv1, hInv2, hInv3⟩ := hInv
  refine ⟨hlen, hInv1, ?_, ?_⟩
  · intro p hp
    rcases hInv2 p hp with htc | ⟨q, hqmem, hqconn⟩
    · exact Or.inl htc
    · rcases List.mem_cons.mp hqmem with rfl | hqrest
      · exfalso
        obtain ⟨⟨hqin, hqcol⟩, -⟩ := hqconn
        rcases hskip with hnone | ⟨idx, hpix, hncol⟩
        · exact getPixel_eq_none_iff.mp hnone hqin
        · obtain ⟨-, rfl⟩ := getPixel_eq_some_iff.mp hpix
          exact hncol hqcol
      · exact Or.inr ⟨q, hqrest, hqconn⟩
  · intro q hqmem hok
    exact hInv3 q (List.mem_cons_of_mem _ hqmem) hok

/-- Recoloring the popped `sc`-colored cell and pushing its four neighbors
preserves the invariant. -/
theorem fillInv_recolor {w h : Nat} {sc tc : Color} {d0 : List Color} {s : Int × Int}
    (hne : sc ≠ tc) {cx cy : Int} {rest : List (Int × Int)} {d : List Color} {idx : Nat}
    (hpix : getPixel w h cx cy = some idx) (hcol : d[idx]? = some sc)
    (hInv : FillInv w h sc tc d0 s ((cx, cy) :: rest) d) :
    FillInv w h sc tc d0 s
      ((cx, cy - 1) :: (cx, cy + 1) :: (cx - 1, cy) :: (cx + 1, cy) :: rest)
      (d.set idx tc) := by
  obtain ⟨hqin, rfl⟩ := getPixel_eq_some_iff.mp hpix
  obtain ⟨hlen, hInv1, hInv2, hInv3⟩ := hInv
  have hlt : idxOf w (cx, cy) < d.length := (List.getElem?_eq_some_iff.mp hcol).1
  have hqok : okP w h sc d (cx, cy) := ⟨hqin, hcol⟩
  have hqconn : Conn w h sc d0 s (cx, cy) := hInv3 _ (List.mem_cons_self _ _) hqok
  have hsetq : (d.set (idxOf w (cx, cy)) tc)[idxOf w (cx, cy)]? = some tc :=
    List.getElem?_set_self hlt
  have hmemstep : ∀ nb : Int × Int, Adj (cx, cy) nb →
      nb ∈ (cx, cy - 1) :: (cx, cy + 1) :: (cx - 1, cy) :: (cx + 1, cy) :: rest := by
    intro nb hadj
    rcases hadj with ⟨h1, h2⟩ | ⟨h1, h2⟩ | ⟨h1, h2⟩ | ⟨h1, h2⟩ <;>
      [skip; skip; skip; skip] <;>
      · have : nb = (nb.1, nb.2) := rfl
        simp [List.mem_cons, Prod.ext_iff, h1, h2]
  refine ⟨by rw [List.length_set]; exact hlen, ?_, ?_, ?_⟩
  · -- data is original except on recolored component cells
    intro i
    by_cases hi : i = idxOf w (cx, cy)
    · subst hi
      exact Or.inr ⟨hsetq, (cx, cy), rfl, hqconn⟩
    · have hkeep : (d.set (idxOf w (cx, cy)) tc)[i]? = d[i]? :=
        List.getElem?_set_ne (fun hcontra => hi hcontra.symm)
      rw [hkeep]
      exact hInv1 i
  · -- frontier: every component cell is recolored or connected to the stack
    intro p hp
    rcases hInv2 p hp with htc | ⟨q, hqmem, hqconn2⟩
    · left
      by_cases hip : idxOf w p = idxOf w (cx, cy)
      · rw [hip]; exact hsetq
      · rw [List.getElem?_set_ne (fun hcontra => hip hcontra.symm)]
        exact htc
    · by_cases hpq : p = (cx, cy)
      · left; rw [hpq]; exact hsetq
      · obtain ⟨hqok2, hrtg⟩ := hqconn2
        rcases conn_avoid hne hqin hcol hrtg hqok2 hpq with
          ⟨hqne, hrtg2⟩ | ⟨nb, hnbadj, hnbok, hnbrtg⟩
        · right
          refine ⟨q, ?_, (okP_set_iff hne hqin hcol q).mpr ⟨hqok2, hqne⟩, hrtg2⟩
          rcases List.mem_cons.mp hqmem with rfl | hqrest
          · exact absurd rfl hqne
          · simp [List.mem_cons, hqrest]
        · right
          exact ⟨nb, hmemstep nb hnbadj, hnbok, hnbrtg⟩
  · -- every still-`sc` stack entry is in the component
    intro q hqmem hok2
    have hok3 := (okP_set_iff hne hqin hcol q).mp hok2
    have horig : okP w h sc d0 q := okP_orig hne hInv1 hok3.1
    rcases List.mem_cons.mp hqmem with rfl | hq2
    · exact ⟨hqconn.1, hqconn.2.tail ⟨horig, Or.inr (Or.inr (Or.inr ⟨rfl, rfl⟩))⟩⟩
    · rcases List.mem_cons.mp hq2 with rfl | hq3
      · exact ⟨hqconn.1, hqconn.2.tail ⟨horig, Or.inr (Or.inr (Or.inl ⟨rfl, rfl⟩))⟩⟩
      · rcases List.mem_cons.mp hq3 with rfl | hq4
        · exact ⟨hqconn.1, hqconn.2.tail ⟨horig, Or.inr (Or.inl ⟨rfl, rfl⟩)⟩⟩
        · rcases List.mem_cons.mp hq4 with rfl | hq5
          · exact ⟨hqconn.1, hqconn.2.tail ⟨horig, Or.inl ⟨rfl, rfl⟩⟩⟩
          · exact hInv3 q (List.mem_cons_of_mem _ hq5) hok3.1

/-- The endpoint of a connectivity path is itself in bounds and
`sc`-colored. -/
theorem conn_ok_end {w h : Nat} {sc : Color} {d : List Color} {a b : Int × Int}
    (hc : Conn w h sc d a b) : okP w h sc d b := by
  obtain ⟨hoka, hrtg⟩ := hc
  rcases Relation.ReflTransGen.cases_tail hrtg with rfl | ⟨c, -, hstep⟩
  · exact hoka
  · exact hstep.1

/-- Running the loop to completion turns the invariant for any stack into
the invariant for the empty stack. -/
theorem fillLoop_inv (w h : Nat) (sc tc : Color) (hne : sc ≠ tc)
    (d0 : List Color) (s : Int × Int) :
    ∀ (stack : List (Int × Int)) (d : List Color),
      FillInv w h sc tc d0 s stack d →
      FillInv w h sc tc d0 s [] (fillLoop w h sc tc hne stack d) := by
  intro stack d
  induction stack, d using fillLoop.induct w h sc tc hne with
  | case1 d =>
    intro hInv
    rw [fillLoop.eq_1]
    exact hInv
  | case2 cx cy rest d hnone ih =>
    intro hInv
    rw [fillLoop.eq_2]
    simp only [hnone]
    exact ih (fillInv_skip (Or.inl hnone) hInv)
  | case3 cx cy rest d idx hpix hcol ih =>
    intro hInv
    rw [fillLoop.eq_2]
    simp only [hpix]
    rw [dif_pos hcol]
    exact ih (fillInv_recolor hne hpix hcol hInv)
  | case4 cx cy rest d idx hpix hcol ih =>
    intro hInv
    rw [fillLoop.eq_2]
    simp only [hpix]
    rw [dif_neg hcol]
    exact ih (fillInv_skip (Or.inr ⟨idx, hpix, hcol⟩) hInv)

/-- Full characterization of `floodFill` in the non-trivial case: the fill
recolors to `⟨fr, fg, fb, 255⟩` exactly the cells 4-connected to the start
through cells of the start color, and changes nothing else. -/
theorem floodFill_spec (buf : Buffer) (x y : Int) (fr fg fb : Nat)
    (hin : inB buf.width buf.height (x, y))
    (sc : Color) (hsc : buf.data[idxOf buf.width (x, y)]? = some sc)
    (hne : sc ≠ Color.mk fr fg fb 255) :
    (floodFill buf x y fr fg fb).width = buf.width ∧
    (floodFill buf x y fr fg fb).height = buf.height ∧
    (floodFill buf x y fr fg fb).data.length = buf.data.length ∧
    (∀ p, Conn buf.width buf.height sc buf.data (x, y) p →
      (floodFill buf x y fr fg fb).data[idxOf buf.width p]? = some (Color.mk fr fg fb 255)) ∧
    (∀ p, inB buf.width buf.height p →
      ¬ Conn buf.width buf.height sc buf.data (x, y) p →
      (floodFill buf x y fr fg fb).data[idxOf buf.width p]? =
        buf.data[idxOf buf.width p]?) ∧
    (∀ i : Nat, (floodFill buf x y fr fg fb).data[i]? = buf.data[i]? ∨
      (floodFill buf x y fr fg fb).data[i]? = some (Color.mk fr fg fb 255)) := by
  have hpix : getPixel buf.width buf.height x y = some (idxOf buf.width (x, y)) :=
    getPixel_inB hin
  have hres : floodFill buf x y fr fg fb =
      { width := buf.width, height := buf.height,
        data := (fillLoop buf.width buf.height sc (Color.mk fr fg fb 255) hne
          [(x, y)] buf.data) } := by
    unfold floodFill
    rw [hpix]
    simp only [hsc]
    rw [dif_neg hne]
  have hInv0 : FillInv buf.width buf.height sc ⟨fr, fg, fb, 255⟩ buf.data (x, y)
      [(x, y)] buf.data := by
    refine ⟨rfl, fun i => Or.inl rfl, ?_, ?_⟩
    · intro p hp
      exact Or.inr ⟨(x, y), List.mem_singleton_self _, hp⟩
    · intro q hq hok
      rw [List.mem_singleton] at hq
      subst hq
      exact ⟨hok, Relation.ReflTransGen.refl⟩
  have hInvF := fillLoop_inv buf.width buf.height sc ⟨fr, fg, fb, 255⟩ hne
    buf.data (x, y) [(x, y)] buf.data hInv0
  obtain ⟨hlen, hInv1, hInv2, hInv3⟩ := hInvF
  rw [hres]
  refine ⟨rfl, rfl, hlen, ?_, ?_, ?_⟩
  · intro p hp
    rcases hInv2 p hp with htc | ⟨q, hqmem, -⟩
    · exact htc
    · cases hqmem
  · intro p hpin hpnc
    rcases hInv1 (idxOf buf.width p) with heq | ⟨-, p2, hp2i, hp2c⟩
    · exact heq
    · exfalso
      have hp2in : inB buf.width buf.height p2 := (conn_ok_end hp2c).1
      have : p2 = p := idxOf_inj hp2in hpin hp2i
      exact hpnc (this ▸ hp2c)
  · intro i
    rcases hInv1 i with heq | ⟨htc, -⟩
    · exact Or.inl heq
    · exact Or.inr htc

/-- The no-op branch: when the start pixel already equals the fill color
(with alpha 255) the buffer is returned unchanged. -/
theorem floodFill_noop (buf : Buffer) (x y : Int) (fr fg fb : Nat)
    (hin : inB buf.width buf.height (x, y))
    (hsc : buf.data[idxOf buf.width (x, y)]? = some (Color.mk fr fg fb 255)) :
    floodFill buf x y fr fg fb = buf := by
  unfold floodFill
  rw [getPixel_inB hin]
  simp only [hsc]
  simp

/-! ## Concrete 3×3 checkerboard -/

/-- Checkerboard color A (opaque). -/
def colorA : Color := ⟨200, 30, 40, 255⟩

/-- Checkerboard color B (opaque). -/
def colorB : Color := ⟨10, 20, 200, 255⟩

/-- The fill color C with the hard-coded alpha 255. -/
def fillC : Color := ⟨50, 220, 60, 255⟩

/-- A 3×3 checkerboard of colors A/B with A at the corners and center. -/
def checker3 : Buffer :=
  ⟨3, 3, [colorA, colorB, colorA, colorB, colorA, colorB, colorA, colorB, colorA]⟩

theorem checker3_eval :
    floodFill checker3 0 0 50 220 60 =
      ⟨3, 3, [fillC, colorB, colorA, colorB, colorA, colorB, colorA, colorB, colorA]⟩ := by
  have hloop : ∀ hne, fillLoop 3 3 colorA fillC hne [(0, 0)] checker3.data =
      [fillC, colorB, colorA, colorB, colorA, colorB, colorA, colorB, colorA] := by
    intro hne
    repeat (rw [fillLoop]; norm_num [getPixel, checker3, colorA, colorB, fillC])
    rw [fillLoop.eq_1]
  have hin : inB checker3.width checker3.height (0, 0) := by decide
  have hpix : getPixel checker3.width checker3.height 0 0 = some 0 := by decide
  have hsc : checker3.data[(0 : Nat)]? = some colorA := by decide
  have hne : colorA ≠ Color.mk 50 220 60 255 := by decide
  unfold floodFill
  rw [hpix]
  simp only [hsc]
  rw [dif_neg hne]
  have h2 : fillLoop checker3.width checker3.height colorA ⟨50, 220, 60, 255⟩ hne
      [(0, 0)] checker3.data =
      [fillC, colorB, colorA, colorB, colorA, colorB, colorA, colorB, colorA] := hloop hne
  rw [h2]
  rfl

/-- C4: flood fill on an in-bounds start pixel is a no-op when the start
color already equals the RGBA fill color, and otherwise recolors to the fill
color exactly the 4-connected component of the start color containing the
start, changing no other pixel; on the 3×3 A/B checkerboard, filling at
(0, 0) with C recolors only the corner cell (the 4-connected component of A
at the origin), leaving the diagonally-isolated A cells unchanged. -/
theorem floodFill_region_correct :
    (∀ (buf : Buffer) (x y : Int) (fr fg fb : Nat) (sc : Color),
      inB buf.width buf.height (x, y) →
      buf.data[idxOf buf.width (x, y)]? = some sc →
      ((sc = Color.mk fr fg fb 255 → floodFill buf x y fr fg fb = buf) ∧
       (sc ≠ Color.mk fr fg fb 255 →
         (∀ p, Conn buf.width buf.height sc buf.data (x, y) p →
           (floodFill buf x y fr fg fb).data[idxOf buf.width p]? =
             some (Color.mk fr fg fb 255)) ∧
         (∀ p, inB buf.width buf.height p →
           ¬ Conn buf.width buf.height sc buf.data (x, y) p →
           (floodFill buf x y fr fg fb).data[idxOf buf.width p]? =
             buf.data[idxOf buf.width p]?) ∧
         (floodFill buf x y fr fg fb).width = buf.width ∧
         (floodFill buf x y fr fg fb).height = buf.height ∧
         (floodFill buf x y fr fg fb).data.length = buf.data.length))) ∧
    floodFill checker3 0 0 50 220 60 =
      ⟨3, 3, [fillC, colorB, colorA, colorB, colorA, colorB, colorA, colorB, colorA]⟩ := by
  refine ⟨?_, checker3_eval⟩
  intro buf x y fr fg fb sc hin hsc
  constructor
  · intro heq
    subst heq
    exact floodFill_noop buf x y fr fg fb hin hsc
  · intro hne
    obtain ⟨hw, hh, hlen, hcomp, hrest, -⟩ := floodFill_spec buf x y fr fg fb hin sc hsc hne
    exact ⟨hcomp, hrest, hw, hh, hlen⟩

/-- Witness for C4 at the 3×3 checkerboard. -/
theorem floodFill_region_correct_witness :
    inB checker3.width checker3.height (0, 0) ∧
    checker3.data[idxOf checker3.width (0, 0)]? = some colorA ∧
    ((colorA = Color.mk 50 220 60 255 → floodFill checker3 0 0 50 220 60 = checker3) ∧
     (colorA ≠ Color.mk 50 220 60 255 →
       (∀ p, Conn checker3.width checker3.height colorA checker3.data (0, 0) p →
         (floodFill checker3 0 0 50 220 60).data[idxOf checker3.width p]? =
           some (Color.mk 50 220 60 255)) ∧
       (∀ p, inB checker3.width checker3.height p →
         ¬ Conn checker3.width checker3.height colorA checker3.data (0, 0) p →
         (floodFill checker3 0 0 50 220 60).data[idxOf checker3.width p]? =
           checker3.data[idxOf checker3.width p]?) ∧
       (floodFill checker3 0 0 50 220 60).width = checker3.width ∧
       (floodFill checker3 0 0 50 220 60).height = checker3.height ∧
       (floodFill checker3 0 0 50 220 60).data.length = checker3.data.length)) := by
  refine ⟨by decide, by decide, ?_⟩
  exact floodFill_region_correct.1 checker3 0 0 50 220 60 colorA (by decide) (by decide)

/-- The degenerate branch: when the flat array does not contain the start
index the source reads an `undefined` start color and the buffer is
returned unchanged. -/
theorem floodFill_nodata (buf : Buffer) (x y : Int) (fr fg fb : Nat)
    (hin : inB buf.width buf.height (x, y))
    (hsc : buf.data[idxOf buf.width (x, y)]? = none) :
    floodFill buf x y fr fg fb = buf := by
  unfold floodFill
  rw [getPixel_inB hin]
  simp only [hsc]

/-- C5: flood fill is idempotent — applying it twice at the same in-bounds
point with the same fill color yields the same buffer as applying it
once. -/
theorem floodFill_idempotent (buf : Buffer) (x y : Int) (fr fg fb : Nat)
    (hin : inB buf.width buf.height (x, y)) :
    floodFill (floodFill buf x y fr fg fb) x y fr fg fb = floodFill buf x y fr fg fb := by
  cases hsc : buf.data[idxOf buf.width (x, y)]? with
  | none =>
    rw [floodFill_nodata buf x y fr fg fb hin hsc, floodFill_nodata buf x y fr fg fb hin hsc]
  | some sc =>
    by_cases heq : sc = Color.mk fr fg fb 255
    · subst heq
      rw [floodFill_noop buf x y fr fg fb hin hsc, floodFill_noop buf x y fr fg fb hin hsc]
    · obtain ⟨hw, hh, -, hcomp, -, -⟩ := floodFill_spec buf x y fr fg fb hin sc hsc heq
      have hstart : (floodFill buf x y fr fg fb).data[idxOf buf.width (x, y)]? =
          some (Color.mk fr fg fb 255) :=
        hcomp (x, y) ⟨⟨hin, hsc⟩, Relation.ReflTransGen.refl⟩
      have hin2 : inB (floodFill buf x y fr fg fb).width
          (floodFill buf x y fr fg fb).height (x, y) := by
        rw [hw, hh]; exact hin
      have hsc2 : (floodFill buf x y fr fg fb).data[idxOf
          (floodFill buf x y fr fg fb).width (x, y)]? = some (Color.mk fr fg fb 255) := by
        rw [hw]; exact hstart
      exact floodFill_noop _ x y fr fg fb hin2 hsc2

/-- Witness for C5 on a concrete 2×1 buffer. -/
theorem floodFill_idempotent_witness :
    inB (Buffer.mk 2 1 [colorA, colorA]).width (Buffer.mk 2 1 [colorA, colorA]).height (0, 0) ∧
    floodFill (floodFill (Buffer.mk 2 1 [colorA, colorA]) 0 0 10 20 200) 0 0 10 20 200 =
      floodFill (Buffer.mk 2 1 [colorA, colorA]) 0 0 10 20 200 :=
  ⟨by decide, floodFill_idempotent (Buffer.mk 2 1 [colorA, colorA]) 0 0 10 20 200 (by decide)⟩

/-- C10: flood fill always writes the fill color fully opaque, and its no-op
test compares the start pixel against (r, g, b, 255): when the start pixel's
RGB equals the fill color but its alpha is below 255, the fill still
proceeds (the start pixel is rewritten), the whole filled component ends up
fully opaque, and every pixel of the result is either unchanged or fully
opaque. -/
theorem floodFill_alpha255 (buf : Buffer) (x y : Int) (fr fg fb al : Nat)
    (hin : inB buf.width buf.height (x, y))
    (hsc : buf.data[idxOf buf.width (x, y)]? = some (Color.mk fr fg fb al))
    (hal : al < 255) :
    (floodFill buf x y fr fg fb).data[idxOf buf.width (x, y)]? =
      some (Color.mk fr fg fb 255) ∧
    (floodFill buf x y fr fg fb).data[idxOf buf.width (x, y)]? ≠
      buf.data[idxOf buf.width (x, y)]? ∧
    (∀ p, Conn buf.width buf.height (Color.mk fr fg fb al) buf.data (x, y) p →
      (floodFill buf x y fr fg fb).data[idxOf buf.width p]? =
        some (Color.mk fr fg fb 255)) ∧
    (∀ i : Nat, (floodFill buf x y fr fg fb).data[i]? = buf.data[i]? ∨
      (floodFill buf x y fr fg fb).data[i]? = some (Color.mk fr fg fb 255)) := by
  have hne : Color.mk fr fg fb al ≠ Color.mk fr fg fb 255 := by
    intro hcontra
    have : al = 255 := congrArg Color.a hcontra
    omega
  obtain ⟨-, -, -, hcomp, -, hall⟩ :=
    floodFill_spec buf x y fr fg fb hin (Color.mk fr fg fb al) hsc hne
  have hstart := hcomp (x, y) ⟨⟨hin, hsc⟩, Relation.ReflTransGen.refl⟩
  refine ⟨hstart, ?_, hcomp, hall⟩
  rw [hstart, hsc]
  intro hcontra
  have : (255 : Nat) = al := congrArg Color.a (Option.some.inj hcontra)
  omega

/-- Witness for C10 on a concrete 2×1 buffer whose start pixel is
half-transparent red filled with the same red. -/
theorem floodFill_alpha255_witness :
    inB (Buffer.mk 2 1 [Color.mk 200 30 40 128, colorB]).width
      (Buffer.mk 2 1 [Color.mk 200 30 40 128, colorB]).height (0, 0) ∧
    (Buffer.mk 2 1 [Color.mk 200 30 40 128, colorB]).data[idxOf
      (Buffer.mk 2 1 [Color.mk 200 30 40 128, colorB]).width (0, 0)]? =
      some (Color.mk 200 30 40 128) ∧
    128 < 255 ∧
    (floodFill (Buffer.mk 2 1 [Color.mk 200 30 40 128, colorB]) 0 0 200 30 40).data[idxOf
      (Buffer.mk 2 1 [Color.mk 200 30 40 128, colorB]).width (0, 0)]? =
      some (Color.mk 200 30 40 255) := by
  refine ⟨by decide, by decide, by decide, ?_⟩
  exact (floodFill_alpha255 (Buffer.mk 2 1 [Color.mk 200 30 40 128, colorB]) 0 0 200 30 40 128
    (by decide) (by decide) (by decide)).1

/-! ## Timeline editor (`AnimationModal.tsx`) -/

/-- The timeline of the animation editor: the ordered frame sequence
(`frames`, data-URL strings in the source) and the selection index. -/
structure Timeline where
  frames : List String
  sel : Nat
deriving DecidableEq, Repr

/-- The JS `frames.filter((_, i) => i !== k)` of `deleteFrame`, with `i` the
running index. -/
def filterNeIdx (k : Nat) : Nat → List String → List String
  | _, [] => []
  | i, a :: t => if i = k then filterNeIdx k (i + 1) t else a :: filterNeIdx k (i + 1) t

theorem filterNeIdx_eq_eraseIdx :
    ∀ (l : List String) (i k : Nat),
      filterNeIdx k i l = if i ≤ k then l.eraseIdx (k - i) else l := by
  intro l
  induction l with
  | nil => intro i k; simp [filterNeIdx, List.eraseIdx]
  | cons a t ih =>
    intro i k
    unfold filterNeIdx
    by_cases hik : i = k
    · subst hik
      rw [if_pos rfl, if_pos (Nat.le_refl i), Nat.sub_self, List.eraseIdx_cons_zero]
      rw [ih (i + 1) i, if_neg (by omega)]
    · rw [if_neg hik, ih (i + 1) k]
      by_cases hle : i ≤ k
      · have hlt : i < k := Nat.lt_of_le_of_ne hle hik
        rw [if_pos (by omega), if_pos hle]
        have : k - i = (k - (i + 1)) + 1 := by omega
        rw [this, List.eraseIdx_cons_succ]
      · rw [if_neg (by omega), if_neg hle]

/-- `deleteFrame(idx)`: refused while at most one frame remains; otherwise
drops the frame whose index is `idx` and clamps the selection to the last
valid index when it now points past the end. -/
def deleteFrame (t : Timeline) (idx : Nat) : Timeline :=
  if t.frames.length ≤ 1 then t
  else
    let newFrames := filterNeIdx idx 0 t.frames
    { frames := newFrames,
      sel := if t.sel ≥ newFrames.length then newFrames.length - 1 else t.sel }

/-- `moveFrame(idx, direction)`: no-op when the target index falls outside
the timeline, otherwise swaps the two frames and moves the selection to the
target.  The swap is the source's simultaneous destructuring assignment,
modelled by two `List.set` with values read from the original list. -/
def moveFrame (t : Timeline) (idx : Nat) (direction : Int) : Timeline :=
  let targetIdx : Int := (idx : Int) + direction
  if targetIdx < 0 ∨ targetIdx ≥ (t.frames.length : Int) then t
  else
    { frames := (t.frames.set idx (t.frames.getD targetIdx.toNat "")).set
        targetIdx.toNat (t.frames.getD idx ""),
      sel := targetIdx.toNat }

/-- `duplicateFrame(idx)`: inserts a copy right after `idx`, selection moves
to the copy. -/
def duplicateFrame (t : Timeline) (idx : Nat) : Timeline :=
  { frames := t.frames.take (idx + 1) ++ [t.frames.getD idx ""] ++ t.frames.drop (idx + 1),
    sel := idx + 1 }

theorem deleteFrame_length (t : Timeline) (idx : Nat) :
    (deleteFrame t idx).frames.length =
      if t.frames.length ≤ 1 then t.frames.length
      else if idx < t.frames.length then t.frames.length - 1 else t.frames.length := by
  unfold deleteFrame
  by_cases hle : t.frames.length ≤ 1
  · rw [if_pos hle, if_pos hle]
  · rw [if_neg hle, if_neg hle]
    simp only
    rw [filterNeIdx_eq_eraseIdx t.frames 0 idx, if_pos (Nat.zero_le idx), Nat.sub_zero]
    rw [List.length_eraseIdx]

/-- C7: deletion refuses to empty the timeline (length 1 is left unchanged),
a valid delete removes exactly the addressed frame, any sequence of deletes
keeps at least one frame, and the selection is clamped to the last valid
index when it falls past the new end. -/
theorem deleteFrame_safe :
    (∀ (t : Timeline) (idx : Nat), t.frames.length = 1 → deleteFrame t idx = t) ∧
    (∀ (t : Timeline) (idx : Nat), 1 < t.frames.length →
      (deleteFrame t idx).frames = t.frames.eraseIdx idx) ∧
    (∀ (t : Timeline) (ops : List Nat), 1 ≤ t.frames.length →
      1 ≤ (ops.foldl deleteFrame t).frames.length) ∧
    (∀ (t : Timeline) (idx : Nat), 1 < t.frames.length → idx < t.frames.length →
      ((deleteFrame t idx).sel < (deleteFrame t idx).frames.length ∧
       ((deleteFrame t idx).frames.length ≤ t.sel →
         (deleteFrame t idx).sel = (deleteFrame t idx).frames.length - 1))) := by
  have hframes : ∀ (t : Timeline) (idx : Nat), 1 < t.frames.length →
      (deleteFrame t idx).frames = t.frames.eraseIdx idx := by
    intro t idx hlt
    unfold deleteFrame
    rw [if_neg (by omega)]
    simp only
    rw [filterNeIdx_eq_eraseIdx t.frames 0 idx, if_pos (Nat.zero_le idx), Nat.sub_zero]
  refine ⟨?_, hframes, ?_, ?_⟩
  · intro t idx hone
    unfold deleteFrame
    rw [if_pos (by omega)]
  · intro t ops
    induction ops generalizing t with
    | nil => intro h1; exact h1
    | cons op rest ih =>
      intro h1
      simp only [List.foldl_cons]
      apply ih
      rw [deleteFrame_length]
      by_cases hle : t.frames.length ≤ 1
      · rw [if_pos hle]; omega
      · rw [if_neg hle]
        by_cases hidx : op < t.frames.length
        · rw [if_pos hidx]; omega
        · rw [if_neg hidx]; omega
  · intro t idx hlt hidx
    have hlen : (deleteFrame t idx).frames.length = t.frames.length - 1 := by
      rw [deleteFrame_length, if_neg (by omega), if_pos hidx]
    have hsel : (deleteFrame t idx).sel =
        if t.sel ≥ (filterNeIdx idx 0 t.frames).length then
          (filterNeIdx idx 0 t.frames).length - 1 else t.sel := by
      unfold deleteFrame
      rw [if_neg (by omega)]
    have hflen : (filterNeIdx idx 0 t.frames).length = t.frames.length - 1 := by
      have := hframes t idx hlt
      unfold deleteFrame at this
      rw [if_neg (by omega)] at this
      simp only at this
      rw [this]
      rw [List.length_eraseIdx, if_pos hidx]
    constructor
    · rw [hlen, hsel, hflen]
      by_cases hge : t.sel ≥ t.frames.length - 1
      · rw [if_pos hge]; omega
      · rw [if_neg hge]; omega
    · intro hpast
      rw [hlen] at hpast
      rw [hsel, hflen, if_pos (by omega), hlen]

/-- Witness for C7 on a concrete three-frame timeline. -/
theorem deleteFrame_safe_witness :
    (Timeline.mk ["f0"] 0).frames.length = 1 ∧
    deleteFrame (Timeline.mk ["f0"] 0) 0 = Timeline.mk ["f0"] 0 ∧
    1 < (Timeline.mk ["f0", "f1", "f2"] 2).frames.length ∧
    (deleteFrame (Timeline.mk ["f0", "f1", "f2"] 2) 2).frames =
      (Timeline.mk ["f0", "f1", "f2"] 2).frames.eraseIdx 2 ∧
    1 ≤ (([1, 0, 0, 5] : List Nat).foldl deleteFrame
      (Timeline.mk ["f0", "f1", "f2"] 2)).frames.length ∧
    (deleteFrame (Timeline.mk ["f0", "f1", "f2"] 2) 2).sel <
      (deleteFrame (Timeline.mk ["f0", "f1", "f2"] 2) 2).frames.length := by
  refine ⟨by decide, deleteFrame_safe.1 _ 0 (by decide), by decide,
    deleteFrame_safe.2.1 _ 2 (by decide), deleteFrame_safe.2.2.1 _ [1, 0, 0, 5] (by decide),
    (deleteFrame_safe.2.2.2 _ 2 (by decide) (by decide)).1⟩

/-- In-bounds unfolding of `moveFrame`. -/
theorem moveFrame_eq_of_inbounds (t : Timeline) (idx : Nat) (d : Int)
    (hge : 0 ≤ (idx : Int) + d) (hlt : (idx : Int) + d < (t.frames.length : Int)) :
    moveFrame t idx d =
      { frames := (t.frames.set idx (t.frames.getD ((idx : Int) + d).toNat "")).set
          ((idx : Int) + d).toNat (t.frames.getD idx ""),
        sel := ((idx : Int) + d).toNat } := by
  unfold moveFrame
  rw [if_neg (by push_neg; exact ⟨hge, hlt⟩)]

/-- C8: moving by d ∈ {−1, +1} with an in-bounds target swaps the two
frames and moves the selection to the target; an out-of-bounds target is a
no-op; and an in-bounds move followed by the inverse move restores the
original frame order. -/
theorem moveFrame_swap :
    ∀ (t : Timeline) (idx : Nat) (d : Int), (d = -1 ∨ d = 1) →
      ((0 ≤ (idx : Int) + d → (idx : Int) + d < (t.frames.length : Int) →
        idx < t.frames.length →
        ((moveFrame t idx d).sel = ((idx : Int) + d).toNat ∧
         (moveFrame t idx d).frames[idx]? = t.frames[((idx : Int) + d).toNat]? ∧
         (moveFrame t idx d).frames[((idx : Int) + d).toNat]? = t.frames[idx]? ∧
         (∀ j : Nat, j ≠ idx → j ≠ ((idx : Int) + d).toNat →
           (moveFrame t idx d).frames[j]? = t.frames[j]?))) ∧
       ((idx : Int) + d < 0 ∨ (idx : Int) + d ≥ (t.frames.length : Int) →
         moveFrame t idx d = t) ∧
       (0 ≤ (idx : Int) + d → (idx : Int) + d < (t.frames.length : Int) →
        idx < t.frames.length →
        (moveFrame (moveFrame t idx d) ((idx : Int) + d).toNat (-d)).frames = t.frames)) := by
  intro t idx d hd
  have hnoop : (idx : Int) + d < 0 ∨ (idx : Int) + d ≥ (t.frames.length : Int) →
      moveFrame t idx d = t := by
    intro hout
    unfold moveFrame
    rw [if_pos hout]
  refine ⟨?_, hnoop, ?_⟩
  · intro hge hlt hidx
    set tn := ((idx : Int) + d).toNat with htn
    have htn2 : ((tn : Int)) = (idx : Int) + d := Int.toNat_of_nonneg hge
    have htnlt : tn < t.frames.length := by omega
    have hne : idx ≠ tn := by
      rcases hd with rfl | rfl <;> omega
    rw [moveFrame_eq_of_inbounds t idx d hge hlt]
    refine ⟨rfl, ?_, ?_, ?_⟩
    · simp only
      rw [List.getElem?_set_ne hne.symm, List.getElem?_set_self hidx,
        List.getD_eq_getElem?_getD, List.getElem?_eq_getElem htnlt]
      rfl
    · simp only
      rw [List.getElem?_set_self (by rw [List.length_set]; exact htnlt),
        List.getD_eq_getElem?_getD, List.getElem?_eq_getElem hidx]
      rfl
    · intro j hj1 hj2
      simp only
      rw [List.getElem?_set_ne (fun hcontra => hj2 hcontra.symm),
        List.getElem?_set_ne (fun hcontra => hj1 hcontra.symm)]
  · intro hge hlt hidx
    set tn := ((idx : Int) + d).toNat with htn
    have htn2 : ((tn : Int)) = (idx : Int) + d := Int.toNat_of_nonneg hge
    have htnlt : tn < t.frames.length := by omega
    have hne : idx ≠ tn := by rcases hd with rfl | rfl <;> omega
    have hres : (moveFrame t idx d).frames =
        (t.frames.set idx (t.frames.getD tn "")).set tn (t.frames.getD idx "") := by
      rw [moveFrame_eq_of_inbounds t idx d hge hlt]
    have hlen1 : (moveFrame t idx d).frames.length = t.frames.length := by
      rw [hres, List.length_set, List.length_set]
    have hback : ((tn : Int) + -d).toNat = idx := by
      rcases hd with rfl | rfl <;> omega
    have hres2 : (moveFrame (moveFrame t idx d) tn (-d)).frames =
        ((moveFrame t idx d).frames.set tn
          ((moveFrame t idx d).frames.getD ((tn : Int) + -d).toNat "")).set
          ((tn : Int) + -d).toNat ((moveFrame t idx d).frames.getD tn "") := by
      rw [moveFrame_eq_of_inbounds (moveFrame t idx d) tn (-d)
        (by omega) (by rw [hlen1]; omega)]
    rw [hres2, hback]
    have hval1 : (moveFrame t idx d).frames.getD idx "" = t.frames.getD tn "" := by
      rw [hres, List.getD_eq_getElem?_getD, List.getElem?_set_ne hne.symm,
        List.getElem?_set_self hidx,
        List.getD_eq_getElem?_getD, List.getElem?_eq_getElem htnlt]
      rfl
    have hval2 : (moveFrame t idx d).frames.getD tn "" = t.frames.getD idx "" := by
      rw [hres, List.getD_eq_getElem?_getD,
        List.getElem?_set_self (by rw [List.length_set]; exact htnlt),
        List.getD_eq_getElem?_getD, List.getElem?_eq_getElem hidx]
      rfl
    rw [hval1, hval2]
    apply List.ext_getElem?
    intro j
    by_cases hj1 : j = tn
    · subst hj1
      rw [List.getElem?_set_ne hne,
        List.getElem?_set_self (by rw [hlen1]; exact htnlt),
        List.getD_eq_getElem?_getD, List.getElem?_eq_getElem htnlt]
      rfl
    · by_cases hj2 : j = idx
      · subst hj2
        rw [List.getElem?_set_self (by rw [List.length_set, hlen1]; exact hidx),
          List.getD_eq_getElem?_getD, List.getElem?_eq_getElem hidx]
        rfl
      · rw [List.getElem?_set_ne (fun hcontra => hj2 hcontra.symm),
          List.getElem?_set_ne (fun hcontra => hj1 hcontra.symm), hres,
          List.getElem?_set_ne (fun hcontra => hj1 hcontra.symm),
          List.getElem?_set_ne (fun hcontra => hj2 hcontra.symm)]

/-- Witness for C8 on a concrete three-frame timeline, moving index 0 right
and back. -/
theorem moveFrame_swap_witness :
    ((1 : Int) = -1 ∨ (1 : Int) = 1) ∧
    (moveFrame (Timeline.mk ["f0", "f1", "f2"] 0) 0 1).sel = 1 ∧
    (moveFrame (Timeline.mk ["f0", "f1", "f2"] 0) 0 1).frames[(0 : Nat)]? =
      (Timeline.mk ["f0", "f1", "f2"] 0).frames[(1 : Nat)]? ∧
    moveFrame (Timeline.mk ["f0", "f1", "f2"] 0) 2 1 = Timeline.mk ["f0", "f1", "f2"] 0 ∧
    (moveFrame (moveFrame (Timeline.mk ["f0", "f1", "f2"] 0) 0 1) 1 (-1)).frames =
      (Timeline.mk ["f0", "f1", "f2"] 0).frames := by
  have h := moveFrame_swap (Timeline.mk ["f0", "f1", "f2"] 0) 0 1 (Or.inr rfl)
  have h2 := moveFrame_swap (Timeline.mk ["f0", "f1", "f2"] 0) 2 1 (Or.inr rfl)
  have hswap := h.1 (by decide) (by decide) (by decide)
  refine ⟨Or.inr rfl, hswap.1, hswap.2.1, h2.2.1 (by decide), ?_⟩
  exact h.2.2 (by decide) (by decide) (by decide)

/-! ## Playback scheduler (`animate` in `AnimationModal.tsx`) -/

/-- One invocation of the `animate` frame callback, acting on the scheduler
state `(startTime, currentFrame)`.  The source treats a zero `startTimeRef`
as unset (`if (!startTimeRef.current)`), computes the elapsed time since
the recorded start, and only when it strictly exceeds `1000 / fps` either
advances circularly (playing) or pins to the explicit selection, 0 when the
selection is out of range (paused); it then re-bases the start time. -/
def animateTick (fps : ℚ) (playing : Bool) (sel len : Nat)
    (st0 : ℚ) (cur0 : Nat) (time : ℚ) : ℚ × Nat :=
  let st := if st0 = 0 then time else st0
  let deltaTime := time - st
  let interval := 1000 / fps
  if deltaTime > interval then
    (time, if playing then (cur0 + 1) % len else if sel < len then sel else 0)
  else (st, cur0)

/-- Counterexample to C2: at fps = 8 with exactly 125 ms elapsed
(≥ 1000/fps, as the claim requires) the scheduler does NOT advance — the
code's comparison is strict. -/
theorem animateTick_boundary_counterexample :
    (225 : ℚ) - 100 ≥ 1000 / 8 ∧
    animateTick 8 true 0 4 100 0 225 = (100, 0) ∧
    (animateTick 8 true 0 4 100 0 225).2 = 0 := by
  refine ⟨by norm_num, ?_, ?_⟩ <;> norm_num [animateTick]

/-- C2 (amended): once the elapsed time since the recorded start strictly
exceeds 1000/fps ms, a playing tick advances the frame circularly mod the
sequence length and a paused tick pins the index to the selection (0 when
out of range), re-basing the start time; otherwise the state is unchanged.
At fps = 8 the threshold is exactly 125 ms, exceeded strictly. -/
theorem animateTick_spec (fps : ℚ) (playing : Bool) (sel len : Nat)
    (st0 : ℚ) (cur0 : Nat) (time : ℚ) (hst : st0 ≠ 0) :
    (time - st0 > 1000 / fps →
      animateTick fps playing sel len st0 cur0 time =
        (time, if playing then (cur0 + 1) % len else if sel < len then sel else 0)) ∧
    (time - st0 ≤ 1000 / fps →
      animateTick fps playing sel len st0 cur0 time = (st0, cur0)) ∧
    (fps = 8 →
      ((time - st0 > 125 →
        animateTick fps playing sel len st0 cur0 time =
          (time, if playing then (cur0 + 1) % len else if sel < len then sel else 0)) ∧
       (time - st0 ≤ 125 →
        animateTick fps playing sel len st0 cur0 time = (st0, cur0)))) := by
  have hunfold : animateTick fps playing sel len st0 cur0 time =
      if time - st0 > 1000 / fps then
        (time, if playing then (cur0 + 1) % len else if sel < len then sel else 0)
      else (st0, cur0) := by
    unfold animateTick
    rw [if_neg hst]
  refine ⟨?_, ?_, ?_⟩
  · intro hgt
    rw [hunfold, if_pos hgt]
  · intro hle
    rw [hunfold, if_neg (by push_neg; exact hle)]
  · intro hfps
    subst hfps
    have h125 : (1000 : ℚ) / 8 = 125 := by norm_num
    rw [h125] at hunfold
    constructor
    · intro hgt
      rw [hunfold, if_pos hgt]
    · intro hle
      rw [hunfold, if_neg (by push_neg; exact hle)]

/-- Witness for the amended C2 at fps = 8: a 126 ms tick advances, a 125 ms
tick does not. -/
theorem animateTick_spec_witness :
    (100 : ℚ) ≠ 0 ∧
    (226 : ℚ) - 100 > 125 ∧
    animateTick 8 true 0 4 100 2 226 = (226, 3) ∧
    animateTick 8 true 0 4 100 2 225 = (100, 2) := by
  have h := animateTick_spec 8 true 0 4 100 2 226 (by norm_num)
  have h2 := animateTick_spec 8 true 0 4 100 2 225 (by norm_num)
  refine ⟨by norm_num, by norm_num, ?_, ?_⟩
  · have := (h.2.2 rfl).1 (by norm_num)
    rw [this]
    norm_num
  · exact (h2.2.2 rfl).2 (by norm_num)

/-! ## Frame slicer / stitcher (`initEditor` and `handleSave`) -/

/-- Read one pixel of a buffer at natural coordinates; outside the stored
data this yields transparent black, the state of a fresh canvas. -/
def pix (b : Buffer) (x y : Nat) : Color := b.data.getD (y * b.width + x) ⟨0, 0, 0, 0⟩

/-- Frame `i` of `initEditor`'s slicing loop: the copy of the rectangle
`[i·frameWidth, 0, frameWidth, height]` of the strip. -/
def sliceFrame (strip : Buffer) (fw i : Nat) : Buffer :=
  ⟨fw, strip.height,
    (List.range (fw * strip.height)).map fun k => pix strip (i * fw + k % fw) (k / fw)⟩

/-- `Slice(strip, frameCount)`: frameWidth = ⌊width / frameCount⌋ and one
copied frame per index in `[0, frameCount)`. -/
def sliceStrip (strip : Buffer) (fc : Nat) : List Buffer :=
  (List.range fc).map (sliceFrame strip (strip.width / fc))

/-- `handleSave`'s stitching: a canvas of width `firstFrame.width · count`
and the first frame's height, with frame `i` drawn at `x = i · firstWidth`
at natural size.  Pixel `(x, y)` therefore comes from frame `x / fw` at
offset `(x mod fw, y)`; where no frame covers the canvas (empty slot or past
a frame's own extent) the canvas keeps its initial transparent black — this
models the source-over composition of the non-overlapping, equally sized
frames that the slicer produces.  An empty timeline is refused by the
source (early return), modelled as the empty bitmap. -/
def stitch (frames : List Buffer) : Buffer :=
  match frames.head? with
  | none => ⟨0, 0, []⟩
  | some f0 =>
    let fw := f0.width
    let hh := f0.height
    let tw := fw * frames.length
    ⟨tw, hh, (List.range (tw * hh)).map fun k =>
      match frames[(k % tw) / fw]? with
      | some f =>
        if (k % tw) % fw < f.width ∧ k / tw < f.height then pix f ((k % tw) % fw) (k / tw)
        else ⟨0, 0, 0, 0⟩
      | none => ⟨0, 0, 0, 0⟩⟩

theorem sliceFrame_pix (strip : Buffer) (fw i xx yy : Nat)
    (hx : xx < fw) (hy : yy < strip.height) :
    pix (sliceFrame strip fw i) xx yy = pix strip (i * fw + xx) yy := by
  have hfw : 0 < fw := by omega
  have h1 : (yy + 1) * fw ≤ strip.height * fw := Nat.mul_le_mul_right fw (by omega)
  have h2 : (yy + 1) * fw = yy * fw + fw := Nat.succ_mul yy fw
  have h3 : strip.height * fw = fw * strip.height := Nat.mul_comm _ _
  have hk : yy * fw + xx < fw * strip.height := by omega
  have hmod : (yy * fw + xx) % fw = xx := by
    rw [Nat.add_comm, Nat.add_mul_mod_self_right, Nat.mod_eq_of_lt hx]
  have hdiv : (yy * fw + xx) / fw = yy := by
    rw [Nat.add_comm, Nat.add_mul_div_right _ _ hfw, Nat.div_eq_of_lt hx, Nat.zero_add]
  have hstart : pix (sliceFrame strip fw i) xx yy =
      ((List.range (fw * strip.height)).map
        fun k => pix strip (i * fw + k % fw) (k / fw)).getD (yy * fw + xx) ⟨0, 0, 0, 0⟩ := rfl
  rw [hstart, List.getD_eq_getElem?_getD, List.getElem?_map, List.getElem?_range hk]
  simp only [Option.map_some', Option.getD_some]
  rw [hmod, hdiv]

theorem slice_length (strip : Buffer) (fc : Nat) : (sliceStrip strip fc).length = fc := by
  unfold sliceStrip
  rw [List.length_map, List.length_range]

theorem slice_getElem (strip : Buffer) (fc i : Nat) (hi : i < fc) :
    (sliceStrip strip fc)[i]? = some (sliceFrame strip (strip.width / fc) i) := by
  unfold sliceStrip
  rw [List.getElem?_map, List.getElem?_range hi]
  rfl

theorem slice_head (strip : Buffer) (fc : Nat) (hfc : 1 ≤ fc) :
    (sliceStrip strip fc).head? = some (sliceFrame strip (strip.width / fc) 0) := by
  have hh := slice_getElem strip fc 0 (by omega)
  rw [List.head?_eq_getElem?]
  exact hh

theorem stitch_eq (frames : List Buffer) (f0 : Buffer) (h : frames.head? = some f0) :
    stitch frames = ⟨f0.width * frames.length, f0.height,
      (List.range ((f0.width * frames.length) * f0.height)).map fun k =>
        match frames[(k % (f0.width * frames.length)) / f0.width]? with
        | some f =>
          if (k % (f0.width * frames.length)) % f0.width < f.width ∧
              k / (f0.width * frames.length) < f.height then
            pix f ((k % (f0.width * frames.length)) % f0.width) (k / (f0.width * frames.length))
          else ⟨0, 0, 0, 0⟩
        | none => ⟨0, 0, 0, 0⟩⟩ := by
  unfold stitch
  rw [h]

theorem stitch_slice_pix (strip : Buffer) (fc : Nat) (hfc : 1 ≤ fc) (x y : Nat)
    (hx : x < (strip.width / fc) * fc) (hy : y < strip.height) :
    pix (stitch (sliceStrip strip fc)) x y = pix strip x y := by
  have hfw : 0 < strip.width / fc := by
    rcases Nat.eq_zero_or_pos (strip.width / fc) with h0 | hpos
    · rw [h0, Nat.zero_mul] at hx; omega
    · exact hpos
  set fw := strip.width / fc with hfwdef
  set tw := fw * fc with htwdef
  have htw : 0 < tw := by
    have := Nat.mul_le_mul hfw hfc
    omega
  have hstitch := stitch_eq (sliceStrip strip fc) (sliceFrame strip fw 0)
    (slice_head strip fc hfc)
  rw [slice_length] at hstitch
  have hsw : (sliceFrame strip fw 0).width = fw := rfl
  have hsh : (sliceFrame strip fw 0).height = strip.height := rfl
  rw [hsw, hsh] at hstitch
  rw [hstitch]
  have h1 : (y + 1) * tw ≤ strip.height * tw := Nat.mul_le_mul_right tw (by omega)
  have h2 : (y + 1) * tw = y * tw + tw := Nat.succ_mul y tw
  have h3 : strip.height * tw = tw * strip.height := Nat.mul_comm _ _
  have hk : y * tw + x < tw * strip.height := by omega
  have hmod : (y * tw + x) % tw = x := by
    rw [Nat.add_comm, Nat.add_mul_mod_self_right, Nat.mod_eq_of_lt hx]
  have hdiv : (y * tw + x) / tw = y := by
    rw [Nat.add_comm, Nat.add_mul_div_right _ _ htw, Nat.div_eq_of_lt hx, Nat.zero_add]
  have hi : x / fw < fc := by
    rw [Nat.div_lt_iff_lt_mul hfw]
    have hcomm : fc * fw = fw * fc := Nat.mul_comm _ _
    omega
  have hstart : pix (Buffer.mk tw strip.height
      ((List.range (tw * strip.height)).map fun k =>
        match (sliceStrip strip fc)[(k % tw) / fw]? with
        | some f =>
          if (k % tw) % fw < f.width ∧ k / tw < f.height then
            pix f ((k % tw) % fw) (k / tw)
          else ⟨0, 0, 0, 0⟩
        | none => ⟨0, 0, 0, 0⟩)) x y =
      ((List.range (tw * strip.height)).map fun k =>
        match (sliceStrip strip fc)[(k % tw) / fw]? with
        | some f =>
          if (k % tw) % fw < f.width ∧ k / tw < f.height then
            pix f ((k % tw) % fw) (k / tw)
          else ⟨0, 0, 0, 0⟩
        | none => ⟨0, 0, 0, 0⟩).getD (y * tw + x) ⟨0, 0, 0, 0⟩ := rfl
  rw [hstart, List.getD_eq_getElem?_getD, List.getElem?_map, List.getElem?_range hk]
  simp only [Option.map_some', Option.getD_some]
  rw [hmod, hdiv, slice_getElem strip fc (x / fw) hi]
  simp only
  have hcond : x % fw < (sliceFrame strip fw (x / fw)).width ∧
      y < (sliceFrame strip fw (x / fw)).height := by
    exact ⟨Nat.mod_lt _ hfw, hy⟩
  rw [if_pos hcond]
  rw [sliceFrame_pix strip fw (x / fw) (x % fw) y (Nat.mod_lt _ hfw) hy]
  have : x / fw * fw + x % fw = x := by
    have hdm := Nat.div_add_mod x fw
    have hcm : x / fw * fw = fw * (x / fw) := Nat.mul_comm _ _
    omega
  rw [this]

/-- C6: slicing a strip with frameCount ≥ 1 yields exactly frameCount
frames of width ⌊W/frameCount⌋ copied from the successive rectangles, and
stitching the slices back produces a bitmap of width ⌊W/frameCount⌋ ·
frameCount and the strip's height whose pixels agree with the strip — the
frames are written left-to-right with no gaps. -/
theorem slice_stitch_roundtrip :
    ∀ (strip : Buffer) (fc : Nat), 1 ≤ fc →
      ((sliceStrip strip fc).length = fc ∧
       (∀ i, i < fc →
         (sliceStrip strip fc)[i]? = some (sliceFrame strip (strip.width / fc) i)) ∧
       (∀ i, i < fc →
         (sliceFrame strip (strip.width / fc) i).width = strip.width / fc ∧
         (sliceFrame strip (strip.width / fc) i).height = strip.height) ∧
       (∀ i xx yy, i < fc → xx < strip.width / fc → yy < strip.height →
         pix (sliceFrame strip (strip.width / fc) i) xx yy =
           pix strip (i * (strip.width / fc) + xx) yy) ∧
       (stitch (sliceStrip strip fc)).width = (strip.width / fc) * fc ∧
       (stitch (sliceStrip strip fc)).height = strip.height ∧
       (∀ x y, x < (strip.width / fc) * fc → y < strip.height →
         pix (stitch (sliceStrip strip fc)) x y = pix strip x y)) := by
  intro strip fc hfc
  have hstitch := stitch_eq (sliceStrip strip fc) (sliceFrame strip (strip.width / fc) 0)
    (slice_head strip fc hfc)
  rw [slice_length] at hstitch
  refine ⟨slice_length strip fc, fun i hi => slice_getElem strip fc i hi,
    fun i hi => ⟨rfl, rfl⟩, fun i xx yy hi hx hy => sliceFrame_pix strip _ i xx yy hx hy,
    ?_, ?_, fun x y hx hy => stitch_slice_pix strip fc hfc x y hx hy⟩
  · rw [hstitch]; rfl
  · rw [hstitch]; rfl

/-- Witness for C6 on a concrete 5×1 strip cut into 2 frames (width 2 each,
one remainder column dropped). -/
theorem slice_stitch_roundtrip_witness :
    (1 : Nat) ≤ 2 ∧
    (sliceStrip (Buffer.mk 5 1 [colorA, colorB, fillC, colorA, colorB]) 2).length = 2 ∧
    (stitch (sliceStrip (Buffer.mk 5 1 [colorA, colorB, fillC, colorA, colorB]) 2)).width = 4 ∧
    (stitch (sliceStrip (Buffer.mk 5 1 [colorA, colorB, fillC, colorA, colorB]) 2)).height = 1 ∧
    pix (stitch (sliceStrip (Buffer.mk 5 1 [colorA, colorB, fillC, colorA, colorB]) 2)) 2 0 =
      pix (Buffer.mk 5 1 [colorA, colorB, fillC, colorA, colorB]) 2 0 := by
  have h := slice_stitch_roundtrip (Buffer.mk 5 1 [colorA, colorB, fillC, colorA, colorB]) 2
    (by decide)
  exact ⟨by decide, h.1, h.2.2.2.2.1, h.2.2.2.2.2.1, h.2.2.2.2.2.2 2 0 (by decide) (by decide)⟩

/-! ## Runtime preview (game playground loop) -/

/-- The movement state of the player, derived each tick from physics. -/
inductive MState where
  | idle
  | run
  | jump
deriving DecidableEq, Repr

/-- The player entity of the game state (positions and velocities are
rationals standing for the JS doubles; 0.8 is modelled exactly as 4/5). -/
structure Player where
  x : ℚ
  y : ℚ
  vx : ℚ
  vy : ℚ
  width : ℚ
  height : ℚ
  state : MState
  facingRight : Bool
  grounded : Bool
  frameIndex : Nat
  frameTimer : Nat
deriving DecidableEq, Repr

/-- The per-state frame counts resolved at load (`state.meta`). -/
structure Meta where
  idleFrames : Nat
  runFrames : Nat
  jumpFrames : Nat
deriving DecidableEq, Repr

/-- The shared input flags captured by the key listeners. -/
structure Keys where
  left : Bool
  right : Bool
  space : Bool
deriving DecidableEq, Repr

/-- The canvas is 800×450 and `floorY = canvas.height - 64`. -/
def floorY : ℚ := 450 - 64

/-- Frame count of the currently active state's strip. -/
def totalFrames (m : Meta) : MState → Nat
  | .idle => m.idleFrames
  | .run => m.runFrames
  | .jump => m.jumpFrames

/-- Input impulses, friction, gravity and position integration of one
tick. -/
def moveStage (keys : Keys) (p0 : Player) : Player :=
  let p1 := if keys.right then { p0 with vx := p0.vx + 1, facingRight := true } else p0
  let p2 := if keys.left then { p1 with vx := p1.vx - 1, facingRight := false } else p1
  let p3 := { p2 with vx := p2.vx * (4 / 5) }
  let p4 := { p3 with vy := p3.vy + 4 / 5 }
  { p4 with x := p4.x + p4.vx, y := p4.y + p4.vy }

/-- Flat-floor collision: snap to the floor and ground, else airborne. -/
def floorStage (p : Player) : Player :=
  if p.y + p.height > floorY then
    { p with y := floorY - p.height, vy := 0, grounded := true }
  else
    { p with grounded := false }

/-- Grounded jump impulse. -/
def jumpStage (keys : Keys) (p : Player) : Player :=
  if keys.space ∧ p.grounded then { p with vy := -15, grounded := false } else p

/-- The state machine: jump iff airborne, else run iff |vx| > 0.5, else
idle. -/
def stateStage (p : Player) : Player :=
  { p with state := if ¬ p.grounded then .jump else if |p.vx| > 1 / 2 then .run else .idle }

/-- The single fixed platform, tested by AABB overlap only while descending
— and only on ticks where the tile asset was resolved, since the source's
check lives inside `if (state.assets.tile)`. -/
def platformStage (hasTile : Bool) (p : Player) : Player :=
  if hasTile ∧ p.x + 32 > 300 ∧ p.x < 396 ∧ p.y + 32 > floorY - 100 ∧
      p.y + 32 < floorY - 90 ∧ p.vy > 0 then
    { p with y := floorY - 100 - 32, vy := 0, grounded := true }
  else p

/-- The physics part of one tick, in source order. -/
def physStep (hasTile : Bool) (keys : Keys) (p : Player) : Player :=
  platformStage hasTile (stateStage (jumpStage keys (floorStage (moveStage keys p))))

/-- The animation-frame update at the end of the tick; it only runs when a
player bitmap resolved (`if (currentImg)`). -/
def animStage (hasImg : Bool) (m : Meta) (p : Player) : Player :=
  if hasImg then
    if p.frameTimer + 1 > 8 then
      { p with frameIndex := (p.frameIndex + 1) % totalFrames m p.state, frameTimer := 0 }
    else { p with frameTimer := p.frameTimer + 1 }
  else p

/-- One full tick of the runtime-preview loop. -/
def tick (hasTile hasImg : Bool) (m : Meta) (keys : Keys) (p : Player) : Player :=
  animStage hasImg m (physStep hasTile keys p)

theorem moveStage_frame (keys : Keys) (p : Player) :
    (moveStage keys p).frameIndex = p.frameIndex ∧
    (moveStage keys p).frameTimer = p.frameTimer ∧
    (moveStage keys p).state = p.state ∧
    (moveStage keys p).grounded = p.grounded := by
  unfold moveStage
  split <;> split <;> exact ⟨rfl, rfl, rfl, rfl⟩

theorem floorStage_frame (p : Player) :
    (floorStage p).frameIndex = p.frameIndex ∧
    (floorStage p).frameTimer = p.frameTimer ∧
    (floorStage p).state = p.state ∧
    (floorStage p).x = p.x ∧ (floorStage p).vx = p.vx := by
  unfold floorStage
  split <;> exact ⟨rfl, rfl, rfl, rfl, rfl⟩

theorem jumpStage_frame (keys : Keys) (p : Player) :
    (jumpStage keys p).frameIndex = p.frameIndex ∧
    (jumpStage keys p).frameTimer = p.frameTimer ∧
    (jumpStage keys p).state = p.state ∧
    (jumpStage keys p).x = p.x ∧ (jumpStage keys p).y = p.y := by
  unfold jumpStage
  split <;> exact ⟨rfl, rfl, rfl, rfl, rfl⟩

theorem stateStage_frame (p : Player) :
    (stateStage p).frameIndex = p.frameIndex ∧
    (stateStage p).frameTimer = p.frameTimer ∧
    (stateStage p).x = p.x ∧ (stateStage p).y = p.y ∧
    (stateStage p).vx = p.vx ∧ (stateStage p).vy = p.vy ∧
    (stateStage p).grounded = p.grounded := by
  unfold stateStage
  exact ⟨rfl, rfl, rfl, rfl, rfl, rfl, rfl⟩

theorem platformStage_frame (ht : Bool) (p : Player) :
    (platformStage ht p).frameIndex = p.frameIndex ∧
    (platformStage ht p).frameTimer = p.frameTimer ∧
    (platformStage ht p).state = p.state ∧
    (platformStage ht p).x = p.x := by
  unfold platformStage
  split <;> exact ⟨rfl, rfl, rfl, rfl⟩

theorem physStep_frame (ht : Bool) (keys : Keys) (p : Player) :
    (physStep ht keys p).frameIndex = p.frameIndex ∧
    (physStep ht keys p).frameTimer = p.frameTimer := by
  unfold physStep
  rw [(platformStage_frame ht _).1, (platformStage_frame ht _).2.1,
    (stateStage_frame _).1, (stateStage_frame _).2.1,
    (jumpStage_frame keys _).1, (jumpStage_frame keys _).2.1,
    (floorStage_frame _).1, (floorStage_frame _).2.1,
    (moveStage_frame keys _).1, (moveStage_frame keys _).2.1]
  exact ⟨rfl, rfl⟩

theorem animStage_phys (hi : Bool) (m : Meta) (p : Player) :
    (animStage hi m p).state = p.state ∧
    (animStage hi m p).x = p.x ∧ (animStage hi m p).y = p.y ∧
    (animStage hi m p).vx = p.vx ∧ (animStage hi m p).vy = p.vy ∧
    (animStage hi m p).grounded = p.grounded := by
  unfold animStage
  split
  · split <;> exact ⟨rfl, rfl, rfl, rfl, rfl, rfl⟩
  · exact ⟨rfl, rfl, rfl, rfl, rfl, rfl⟩

theorem tick_frameTimer (ht : Bool) (m : Meta) (keys : Keys) (p : Player) :
    (tick ht true m keys p).frameTimer =
      if p.frameTimer + 1 > 8 then 0 else p.frameTimer + 1 := by
  unfold tick animStage
  rw [if_pos rfl]
  rw [(physStep_frame ht keys p).2]
  split <;> rfl

theorem tick_frameIndex (ht : Bool) (m : Meta) (keys : Keys) (p : Player) :
    (tick ht true m keys p).frameIndex =
      if p.frameTimer + 1 > 8 then
        (p.frameIndex + 1) % totalFrames m (tick ht true m keys p).state
      else p.frameIndex := by
  have hstate : (tick ht true m keys p).state = (physStep ht keys p).state := by
    unfold tick
    exact (animStage_phys true m _).1
  rw [hstate]
  unfold tick animStage
  rw [if_pos rfl]
  rw [(physStep_frame ht keys p).2]
  split
  · rw [(physStep_frame ht keys p).1]
  · rw [(physStep_frame ht keys p).1]

/-- The largest of the three per-state frame counts. -/
def maxFrames (m : Meta) : Nat := max m.idleFrames (max m.runFrames m.jumpFrames)

theorem totalFrames_le_maxFrames (m : Meta) (s : MState) :
    totalFrames m s ≤ maxFrames m := by
  cases s <;> simp only [totalFrames, maxFrames] <;> omega

/-- The initial player of the loop (loader resets x=100, y=200,
velocities 0). -/
def initPlayer : Player := ⟨100, 200, 0, 0, 32, 32, .idle, true, false, 0, 0⟩

/-- No key pressed. -/
def noKeys : Keys := ⟨false, false, false⟩

/-- Jump key held. -/
def spaceKey : Keys := ⟨false, false, true⟩

/-- A resolved binding with a 4-frame idle strip and single-frame run and
jump strips. -/
def metaIRJ : Meta := ⟨4, 1, 1⟩

/-- A player at rest on the floor in the idle state, with animation frame
`fi` and timer `ft`. -/
def restP (fi ft : Nat) : Player := ⟨100, 354, 0, 0, 32, 32, .idle, true, true, fi, ft⟩

/-- A no-input tick of a resting player only advances the animation
timer (below the 8-tick threshold). -/
theorem rest_tick (m : Meta) (fi ft : Nat) (hft : ft < 8) :
    tick true true m noKeys (restP fi ft) = restP fi (ft + 1) := by
  unfold tick physStep moveStage floorStage jumpStage stateStage platformStage animStage
    restP noKeys floorY
  norm_num
  omega

/-- The ninth no-input tick of a resting player advances the frame index
modulo the idle frame count. -/
theorem rest_tick_advance (m : Meta) (fi : Nat) :
    tick true true m noKeys (restP fi 8) =
      restP ((fi + 1) % m.idleFrames) 0 := by
  unfold tick physStep moveStage floorStage jumpStage stateStage platformStage animStage
    restP noKeys floorY totalFrames
  norm_num

/-- A jump tick from rest: the grounded jump impulse fires, the state
machine reports `jump`, and the animation keeps its old frame index (the
timer stays below the threshold). -/
theorem rest_jump_tick (m : Meta) (fi : Nat) :
    tick true true m spaceKey (restP fi 0) =
      ⟨100, 354, 0, -15, 32, 32, .jump, true, false, fi, 1⟩ := by
  unfold tick physStep moveStage floorStage jumpStage stateStage platformStage animStage
    restP spaceKey floorY
  norm_num

/-- Counterexample to C1: a player resting in the idle state (4 idle
frames) on animation frame 3 presses jump; on that tick the movement state
changes to `jump` (1 frame) but the drawn frame index stays 3, outside
[0, 1) — the index is only wrapped when the 8-tick timer fires. -/
theorem frameIndex_escape_cex :
    (restP 3 0).state = MState.idle ∧
    (restP 3 0).frameIndex < totalFrames metaIRJ (restP 3 0).state ∧
    (tick true true metaIRJ spaceKey (restP 3 0)).state = MState.jump ∧
    (tick true true metaIRJ spaceKey (restP 3 0)).frameIndex = 3 ∧
    totalFrames metaIRJ (tick true true metaIRJ spaceKey (restP 3 0)).state = 1 ∧
    ¬ ((tick true true metaIRJ spaceKey (restP 3 0)).frameIndex <
        totalFrames metaIRJ (tick true true metaIRJ spaceKey (restP 3 0)).state) := by
  rw [rest_jump_tick metaIRJ 3]
  refine ⟨rfl, ?_, rfl, rfl, rfl, ?_⟩
  · show (3 : Nat) < 4
    omega
  · show ¬ ((3 : Nat) < 1)
    omega

/-- C1 (amended): the drawn frame index always stays below the maximum of
the three per-state frame counts (each ≥ 1), and on every tick that
advances the index (the animation timer fires and resets) the new index
lies in [0, frameCount) of the state active on that tick; on a
non-advancing tick immediately after a state change the index is unchanged
and may lie outside the new state's range until the next advance. -/
theorem frameIndex_bound (ht hi : Bool) (m : Meta) (keys : Keys) (p : Player)
    (h1 : 1 ≤ m.idleFrames) (h2 : 1 ≤ m.runFrames) (h3 : 1 ≤ m.jumpFrames)
    (hp : p.frameIndex < maxFrames m) :
    (tick ht hi m keys p).frameIndex < maxFrames m ∧
    (hi = true → (tick ht hi m keys p).frameTimer = 0 →
      (tick ht hi m keys p).frameIndex <
        totalFrames m (tick ht hi m keys p).state) := by
  have htfpos : ∀ s, 1 ≤ totalFrames m s := by
    intro s; cases s <;> simp only [totalFrames] <;> omega
  cases hi with
  | false =>
    have heq : tick ht false m keys p = physStep ht keys p := by
      unfold tick animStage
      rw [if_neg (by simp)]
    constructor
    · rw [heq, (physStep_frame ht keys p).1]
      exact hp
    · intro hcontra
      cases hcontra
  | true =>
    have hidx := tick_frameIndex ht m keys p
    have htmr := tick_frameTimer ht m keys p
    by_cases hfire : p.frameTimer + 1 > 8
    · rw [if_pos hfire] at hidx htmr
      have hmod : (p.frameIndex + 1) % totalFrames m (tick ht true m keys p).state <
          totalFrames m (tick ht true m keys p).state :=
        Nat.mod_lt _ (htfpos _)
      constructor
      · rw [hidx]
        exact Nat.lt_of_lt_of_le hmod (totalFrames_le_maxFrames m _)
      · intro _ _
        rw [hidx]
        exact hmod
    · rw [if_neg hfire] at hidx htmr
      constructor
      · rw [hidx]; exact hp
      · intro _ hzero
        rw [htmr] at hzero
        omega

/-- Witness for the amended C1 at the concrete jump tick of the
counterexample state. -/
theorem frameIndex_bound_witness :
    1 ≤ metaIRJ.idleFrames ∧ 1 ≤ metaIRJ.runFrames ∧ 1 ≤ metaIRJ.jumpFrames ∧
    (restP 3 0).frameIndex < maxFrames metaIRJ ∧
    (tick true true metaIRJ spaceKey (restP 3 0)).frameIndex < maxFrames metaIRJ := by
  refine ⟨by decide, by decide, by decide, by decide, ?_⟩
  exact (frameIndex_bound true true metaIRJ spaceKey (restP 3 0)
    (by decide) (by decide) (by decide) (by decide)).1

/-- The sequence of game states produced by running the loop from `p` under
the per-tick key snapshots `ks`. -/
def tickSeq (ht hi : Bool) (m : Meta) (ks : Nat → Keys) (p : Player) : Nat → Player
  | 0 => p
  | n + 1 => tick ht hi m (ks n) (tickSeq ht hi m ks p n)

theorem restSeq_eval : ∀ k : Nat, k ≤ 8 →
    tickSeq true true metaIRJ (fun _ => noKeys) (restP 0 0) k = restP 0 k := by
  intro k
  induction k with
  | zero => intro _; rfl
  | succ n ih =>
    intro hn
    have hprev := ih (by omega)
    show tick true true metaIRJ noKeys
      (tickSeq true true metaIRJ (fun _ => noKeys) (restP 0 0) n) = restP 0 (n + 1)
    rw [hprev]
    exact rest_tick metaIRJ 0 n (by omega)

theorem restSeq_nine :
    tickSeq true true metaIRJ (fun _ => noKeys) (restP 0 0) 9 = restP 1 0 := by
  show tick true true metaIRJ noKeys
    (tickSeq true true metaIRJ (fun _ => noKeys) (restP 0 0) 8) = restP 1 0
  rw [restSeq_eval 8 (by omega), rest_tick_advance]
  norm_num [metaIRJ]

/-- Counterexample to C3: eight consecutive no-input ticks of a resting
idle player (timer starting at 0) leave the frame index unchanged — the
code advances only when `frameTimer > 8` holds after the increment, i.e.
every 9 ticks, so this run of 8 ticks with an unchanged active state has
zero advances, not one. -/
theorem anim_not_every_eight_cex :
    (∀ k : Nat, k < 8 →
      (tickSeq true true metaIRJ (fun _ => noKeys) (restP 0 0) (k + 1)).state =
        MState.idle) ∧
    (restP 0 0).frameTimer = 0 ∧
    (tickSeq true true metaIRJ (fun _ => noKeys) (restP 0 0) 8).frameIndex =
      (restP 0 0).frameIndex := by
  refine ⟨?_, rfl, ?_⟩
  · intro k hk
    rw [restSeq_eval (k + 1) (by omega)]
    rfl
  · rw [restSeq_eval 8 (by omega)]
    rfl

/-- C3 (amended): the index advances exactly once every NINE ticks: over a
run of nine consecutive ticks with an unchanged active state starting with
the timer at 0, the first eight ticks leave the frame index unchanged
(timer counting up) and the ninth increments it once, wrapping modulo the
active state's frame count, resetting the timer. -/
theorem anim_period_nine (ht : Bool) (m : Meta) (ks : Nat → Keys) (p : Player) (S : MState)
    (hstate : ∀ k, k < 9 → (tickSeq ht true m ks p (k + 1)).state = S)
    (htimer : p.frameTimer = 0) :
    (∀ k, k ≤ 8 → (tickSeq ht true m ks p k).frameIndex = p.frameIndex ∧
      (tickSeq ht true m ks p k).frameTimer = k) ∧
    (tickSeq ht true m ks p 9).frameIndex = (p.frameIndex + 1) % totalFrames m S ∧
    (tickSeq ht true m ks p 9).frameTimer = 0 := by
  have hstep : ∀ k, k ≤ 8 → (tickSeq ht true m ks p k).frameIndex = p.frameIndex ∧
      (tickSeq ht true m ks p k).frameTimer = k := by
    intro k
    induction k with
    | zero => intro _; exact ⟨rfl, htimer⟩
    | succ n ih =>
      intro hn
      have hprev := ih (by omega)
      have hidx := tick_frameIndex ht m (ks n) (tickSeq ht true m ks p n)
      have htmr := tick_frameTimer ht m (ks n) (tickSeq ht true m ks p n)
      have hnofire : ¬ ((tickSeq ht true m ks p n).frameTimer + 1 > 8) := by
        rw [hprev.2]; omega
      rw [if_neg hnofire] at hidx htmr
      constructor
      · show (tick ht true m (ks n) (tickSeq ht true m ks p n)).frameIndex = p.frameIndex
        rw [hidx, hprev.1]
      · show (tick ht true m (ks n) (tickSeq ht true m ks p n)).frameTimer = n + 1
        rw [htmr, hprev.2]
  have h8 := hstep 8 (by omega)
  have hfire : (tickSeq ht true m ks p 8).frameTimer + 1 > 8 := by rw [h8.2]; omega
  have hidx := tick_frameIndex ht m (ks 8) (tickSeq ht true m ks p 8)
  have htmr := tick_frameTimer ht m (ks 8) (tickSeq ht true m ks p 8)
  rw [if_pos hfire] at hidx htmr
  refine ⟨hstep, ?_, ?_⟩
  · show (tick ht true m (ks 8) (tickSeq ht true m ks p 8)).frameIndex = _
    rw [hidx, h8.1]
    have hS : (tick ht true m (ks 8) (tickSeq ht true m ks p 8)).state = S :=
      hstate 8 (by omega)
    rw [hS]
  · show (tick ht true m (ks 8) (tickSeq ht true m ks p 8)).frameTimer = 0
    rw [htmr]

/-- Witness for the amended C3 over nine resting idle ticks. -/
theorem anim_period_nine_witness :
    (∀ k : Nat, k < 9 →
      (tickSeq true true metaIRJ (fun _ => noKeys) (restP 0 0) (k + 1)).state =
        MState.idle) ∧
    (restP 0 0).frameTimer = 0 ∧
    (tickSeq true true metaIRJ (fun _ => noKeys) (restP 0 0) 9).frameIndex =
      ((restP 0 0).frameIndex + 1) % totalFrames metaIRJ MState.idle := by
  have hstate : ∀ k : Nat, k < 9 →
      (tickSeq true true metaIRJ (fun _ => noKeys) (restP 0 0) (k + 1)).state =
        MState.idle := by
    intro k hk
    by_cases hk7 : k ≤ 7
    · rw [restSeq_eval (k + 1) (by omega)]
      rfl
    · have : k = 8 := by omega
      subst this
      rw [restSeq_nine]
      rfl
  refine ⟨hstate, rfl, ?_⟩
  exact (anim_period_nine true metaIRJ (fun _ => noKeys) (restP 0 0) MState.idle
    hstate rfl).2.1

/-- A player falling onto the fixed platform's 10-px landing band. -/
def plP : Player := ⟨320, 250, 0, 5, 32, 32, .jump, true, false, 0, 0⟩

theorem plP_tick_noTile :
    tick false true metaIRJ noKeys plP =
      ⟨320, 1279 / 5, 0, 29 / 5, 32, 32, .jump, true, false, 0, 1⟩ := by
  unfold tick physStep moveStage floorStage jumpStage stateStage platformStage animStage
    plP noKeys floorY
  norm_num

theorem plP_tick_tile :
    tick true true metaIRJ noKeys plP =
      ⟨320, 254, 0, 0, 32, 32, .jump, true, true, 0, 1⟩ := by
  unfold tick physStep moveStage floorStage jumpStage stateStage platformStage animStage
    plP noKeys floorY
  norm_num

/-- Counterexample to C9: the same falling player, on the same tick, lands
on the platform when the tile asset resolved but passes straight through it
when the tile asset is missing — the platform test lives inside
`if (state.assets.tile)`, so it is not resolved on every tick. -/
theorem platform_requires_tile_cex :
    (tick false true metaIRJ noKeys plP).grounded = false ∧
    (tick false true metaIRJ noKeys plP).y = 1279 / 5 ∧
    (tick false true metaIRJ noKeys plP).vy = 29 / 5 ∧
    (tick true true metaIRJ noKeys plP).grounded = true ∧
    (tick true true metaIRJ noKeys plP).y = floorY - 132 ∧
    (tick true true metaIRJ noKeys plP).vy = 0 := by
  rw [plP_tick_noTile, plP_tick_tile]
  refine ⟨rfl, rfl, rfl, rfl, ?_, rfl⟩
  show (254 : ℚ) = floorY - 132
  norm_num [floorY]

/-- C9 (amended): every tick resolves collision against the flat floor at
`floorY`; on floor contact the position is snapped onto the floor and, when
no jump fires the same tick, vy = 0 and grounded = true.  The fixed
platform is additionally tested — only on ticks where the tile asset is
resolved, and only while descending (vy > 0) — by axis-aligned overlap; on
platform contact the position snaps to the platform top with vy = 0 and
grounded = true.  Without the tile asset, or when not descending, the
platform has no effect. -/
theorem collision_resolution (ht hi : Bool) (m : Meta) (keys : Keys) (p : Player) :
    ((moveStage keys p).y + (moveStage keys p).height > floorY →
      ((tick ht hi m keys p).y = floorY - (moveStage keys p).height ∧
       (keys.space = false →
         (tick ht hi m keys p).vy = 0 ∧ (tick ht hi m keys p).grounded = true))) ∧
    ((moveStage keys p).y + (moveStage keys p).height ≤ floorY →
      (((ht = true ∧ (moveStage keys p).x + 32 > 300 ∧ (moveStage keys p).x < 396 ∧
         (moveStage keys p).y + 32 > floorY - 100 ∧ (moveStage keys p).y + 32 < floorY - 90 ∧
         (moveStage keys p).vy > 0) →
        ((tick ht hi m keys p).y = floorY - 132 ∧ (tick ht hi m keys p).vy = 0 ∧
         (tick ht hi m keys p).grounded = true)) ∧
       (ht = false →
        ((tick ht hi m keys p).y = (moveStage keys p).y ∧
         (tick ht hi m keys p).vy = (moveStage keys p).vy ∧
         (tick ht hi m keys p).grounded = false)) ∧
       ((moveStage keys p).vy ≤ 0 →
        ((tick ht hi m keys p).y = (moveStage keys p).y ∧
         (tick ht hi m keys p).vy = (moveStage keys p).vy ∧
         (tick ht hi m keys p).grounded = false)))) := by
  have hanim := animStage_phys hi m (physStep ht keys p)
  have hticky : (tick ht hi m keys p).y = (physStep ht keys p).y := hanim.2.2.1
  have htickvy : (tick ht hi m keys p).vy = (physStep ht keys p).vy := hanim.2.2.2.2.1
  have htickg : (tick ht hi m keys p).grounded = (physStep ht keys p).grounded :=
    hanim.2.2.2.2.2
  constructor
  · intro hc
    have hb : floorStage (moveStage keys p) =
        { moveStage keys p with
          y := floorY - (moveStage keys p).height, vy := 0, grounded := true } := by
      unfold floorStage
      rw [if_pos hc]
    cases hspace : keys.space with
    | true =>
      have hj : jumpStage keys (floorStage (moveStage keys p)) =
          { moveStage keys p with
            y := floorY - (moveStage keys p).height, vy := -15, grounded := false } := by
        rw [hb]
        unfold jumpStage
        rw [if_pos ⟨hspace, rfl⟩]
      have hplat : physStep ht keys p =
          stateStage (jumpStage keys (floorStage (moveStage keys p))) := by
        unfold physStep platformStage
        rw [if_neg]
        intro hcond
        have hvy := hcond.2.2.2.2.2
        rw [(stateStage_frame _).2.2.2.2.2.1, hj] at hvy
        exact absurd hvy (by norm_num)
      constructor
      · rw [hticky, hplat, (stateStage_frame _).2.2.2.1, hj]
      · intro hf
        simp at hf
    | false =>
      have hj : jumpStage keys (floorStage (moveStage keys p)) =
          floorStage (moveStage keys p) := by
        unfold jumpStage
        rw [if_neg]
        intro hcond
        simp [hspace] at hcond
      have hplat : physStep ht keys p =
          stateStage (jumpStage keys (floorStage (moveStage keys p))) := by
        unfold physStep platformStage
        rw [if_neg]
        intro hcond
        have hvy := hcond.2.2.2.2.2
        rw [(stateStage_frame _).2.2.2.2.2.1, hj, hb] at hvy
        exact absurd hvy (by norm_num)
      refine ⟨?_, fun _ => ⟨?_, ?_⟩⟩
      · rw [hticky, hplat, (stateStage_frame _).2.2.2.1, hj, hb]
      · rw [htickvy, hplat, (stateStage_frame _).2.2.2.2.2.1, hj, hb]
      · rw [htickg, hplat, (stateStage_frame _).2.2.2.2.2.2, hj, hb]
  · intro hc2
    have hb : floorStage (moveStage keys p) = { moveStage keys p with grounded := false } := by
      unfold floorStage
      rw [if_neg (not_lt.mpr hc2)]
    have hj : jumpStage keys (floorStage (moveStage keys p)) =
        floorStage (moveStage keys p) := by
      unfold jumpStage
      rw [if_neg]
      intro hcond
      have h2 := hcond.2
      rw [hb] at h2
      simp at h2
    refine ⟨?_, ?_, ?_⟩
    · rintro ⟨hht, h1, h2, h3, h4, h5⟩
      have hfire : physStep ht keys p =
          { stateStage (jumpStage keys (floorStage (moveStage keys p))) with
            y := floorY - 100 - 32, vy := 0, grounded := true } := by
        unfold physStep platformStage
        rw [if_pos]
        refine ⟨hht, ?_, ?_, ?_, ?_, ?_⟩
        · rw [(stateStage_frame _).2.2.1, hj, hb]; exact h1
        · rw [(stateStage_frame _).2.2.1, hj, hb]; exact h2
        · rw [(stateStage_frame _).2.2.2.1, hj, hb]; exact h3
        · rw [(stateStage_frame _).2.2.2.1, hj, hb]; exact h4
        · rw [(stateStage_frame _).2.2.2.2.2.1, hj, hb]; exact h5
      refine ⟨?_, ?_, ?_⟩
      · rw [hticky, hfire]
        show floorY - 100 - 32 = floorY - 132
        ring
      · rw [htickvy, hfire]
      · rw [htickg, hfire]
    · intro hhf
      have hid : physStep ht keys p =
          stateStage (jumpStage keys (floorStage (moveStage keys p))) := by
        unfold physStep platformStage
        rw [if_neg]
        intro hcond
        rw [hhf] at hcond
        simp at hcond
      refine ⟨?_, ?_, ?_⟩
      · rw [hticky, hid, (stateStage_frame _).2.2.2.1, hj, hb]
      · rw [htickvy, hid, (stateStage_frame _).2.2.2.2.2.1, hj, hb]
      · rw [htickg, hid, (stateStage_frame _).2.2.2.2.2.2, hj, hb]
    · intro hvy
      have hid : physStep ht keys p =
          stateStage (jumpStage keys (floorStage (moveStage keys p))) := by
        unfold physStep platformStage
        rw [if_neg]
        intro hcond
        have h5 := hcond.2.2.2.2.2
        rw [(stateStage_frame _).2.2.2.2.2.1, hj, hb] at h5
        show False
        have : (moveStage keys p).vy > 0 := h5
        exact absurd this (not_lt.mpr hvy)
      refine ⟨?_, ?_, ?_⟩
      · rw [hticky, hid, (stateStage_frame _).2.2.2.1, hj, hb]
      · rw [htickvy, hid, (stateStage_frame _).2.2.2.2.2.1, hj, hb]
      · rw [htickg, hid, (stateStage_frame _).2.2.2.2.2.2, hj, hb]

/-- Witness for the amended C9: the falling player lands on the platform on
a tile-resolved tick. -/
theorem collision_resolution_witness :
    (moveStage noKeys plP).y + (moveStage noKeys plP).height ≤ floorY ∧
    (true = true ∧ (moveStage noKeys plP).x + 32 > 300 ∧ (moveStage noKeys plP).x < 396 ∧
      (moveStage noKeys plP).y + 32 > floorY - 100 ∧
      (moveStage noKeys plP).y + 32 < floorY - 90 ∧ (moveStage noKeys plP).vy > 0) ∧
    ((tick true true metaIRJ noKeys plP).y = floorY - 132 ∧
     (tick true true metaIRJ noKeys plP).vy = 0 ∧
     (tick true true metaIRJ noKeys plP).grounded = true) := by
  have hmove : moveStage noKeys plP =
      ⟨320, 1279 / 5, 0, 29 / 5, 32, 32, .jump, true, false, 0, 0⟩ := by
    unfold moveStage plP noKeys
    norm_num
  have hc2 : (moveStage noKeys plP).y + (moveStage noKeys plP).height ≤ floorY := by
    rw [hmove]
    show (1279 : ℚ) / 5 + 32 ≤ floorY
    norm_num [floorY]
  have hcond : true = true ∧ (moveStage noKeys plP).x + 32 > 300 ∧
      (moveStage noKeys plP).x < 396 ∧ (moveStage noKeys plP).y + 32 > floorY - 100 ∧
      (moveStage noKeys plP).y + 32 < floorY - 90 ∧ (moveStage noKeys plP).vy > 0 := by
    rw [hmove]
    refine ⟨rfl, ?_, ?_, ?_, ?_, ?_⟩ <;> norm_num [floorY]
  exact ⟨hc2, hcond, ((collision_resolution true true metaIRJ noKeys plP).2 hc2).1 hcond⟩
